import Mathlib

/-!
Shallow embedding of the go-tor-dht-poc repository (package
tordht/ipfs, file transport.go together with the DHT implementation file
concatenated behind it).

The embedding covers:
- the quorum peer connector connectPeers (goroutine fan-out plus a
  for/select fan-in loop over a result channel and ctx.Done),
- the lazy dialer bootstrap initDialers and the Dial method,
- the Listen method with its deferred onion teardown on late failure,
- FindProviders with its unchecked indexing of the first provider address,
- the address codec (the defaultAddrFormat helpers live in a file that is
  not part of the provided sources, so they are modelled from the spec).

External collaborators (the bine tor client, the libp2p upgrader, the
gorilla websocket dialer, the kad-dht) are modelled as oracle inputs
carrying the outcome they produce, exactly where the Go code consults them.
-/

set_option autoImplicit false

namespace TorDht

/-- PeerInfo record from the tordht package: peer identity string, onion
service identity, onion port. -/
structure PeerInfo where
  ID : String
  OnionServiceID : String
  OnionPort : Nat
deriving DecidableEq

/-- One event consumed by the for/select loop of connectPeers: a nil error
delivered on peerConnCh, a non-nil error delivered on peerConnCh, or the
observation of ctx.Done with the given ctx.Err cause. A list of events is
one completion order chosen by the scheduler. -/
inductive PeerEvent where
  | success : PeerEvent
  | failure (reason : String) : PeerEvent
  | cancelled (cause : String) : PeerEvent
deriving DecidableEq

/-- The mutable locals of the connectPeers loop: peersConnected and
peerErrs. -/
structure QcState where
  peersConnected : Nat
  peerErrs : List String
deriving DecidableEq

/-- Result of running the connectPeers loop on a finite event list.
pending st means the loop is still blocked in select, with locals st. -/
inductive ConnectOutcome where
  | ok : ConnectOutcome
  | quorumFail (peerErrs : List String) : ConnectOutcome
  | cancelledOut (cause : String) (peerErrs : List String) : ConnectOutcome
  | pending (st : QcState) : ConnectOutcome
deriving DecidableEq

/-- The for/select loop of connectPeers (transport.go lines 337 to 354).
On a nil result it increments peersConnected and returns nil once
peersConnected reaches minRequired; on an error result it appends to
peerErrs and fails once more than numPeers minus minRequired errors are
recorded; on ctx.Done it returns the cancellation cause with the errors
recorded so far. -/
def connectPeersLoop (numPeers minRequired : Nat) :
    List PeerEvent → QcState → ConnectOutcome
  | [], st => .pending st
  | .success :: rest, st =>
    if minRequired ≤ st.peersConnected + 1 then .ok
    else connectPeersLoop numPeers minRequired rest
      ⟨st.peersConnected + 1, st.peerErrs⟩
  | .failure reason :: rest, st =>
    if numPeers - minRequired < (st.peerErrs ++ [reason]).length then
      .quorumFail (st.peerErrs ++ [reason])
    else connectPeersLoop numPeers minRequired rest
      ⟨st.peersConnected, st.peerErrs ++ [reason]⟩
  | .cancelled cause :: _, st => .cancelledOut cause st.peerErrs

/-- connectPeers (transport.go lines 312 to 355): clamp minRequired down to
the number of peers, then consume results starting from zero successes and
no recorded errors. -/
def connectPeers (peers : List PeerInfo) (minRequired : Nat)
    (events : List PeerEvent) : ConnectOutcome :=
  connectPeersLoop peers.length
    (if peers.length < minRequired then peers.length else minRequired)
    events ⟨0, []⟩

/-- The goroutine launch loop of connectPeers runs once per peer, before
the select loop and regardless of minRequired (transport.go lines 319 to
333). -/
def attemptsLaunched (peers : List PeerInfo) : Nat := peers.length

/-- Number of success events in a list. -/
def countS : List PeerEvent → Nat
  | [] => 0
  | .success :: rest => countS rest + 1
  | _ :: rest => countS rest

/-- The failure reasons of a list of events, in order. -/
def failReasons : List PeerEvent → List String
  | [] => []
  | .failure reason :: rest => reason :: failReasons rest
  | _ :: rest => failReasons rest

/-- Character for a decimal digit value. -/
def digitChar (n : Nat) : Char := Char.ofNat (48 + n)

/-- Decimal digit value of a character. -/
def digitVal (c : Char) : Nat := c.toNat - 48

/-- Fuel-indexed decimal printer for naturals (most significant digit
first). -/
def natToDigitsCore : Nat → Nat → List Char
  | 0, _ => []
  | fuel + 1, n =>
    if n < 10 then [digitChar n]
    else natToDigitsCore fuel (n / 10) ++ [digitChar (n % 10)]

/-- Decimal digits of a natural, most significant first. -/
def natToDigits (n : Nat) : List Char := natToDigitsCore (n + 1) n

/-- Parse a decimal digit string (most significant first). -/
def digitsToNat (cs : List Char) : Nat :=
  cs.foldl (fun acc c => acc * 10 + digitVal c) 0

/-- The overlay suffix separating the service identity from the port in a
display address. -/
def onionSuffix : List Char := ".onion:".data

/-- Modelled from the spec: the AddressCodec encode direction
(defaultAddrFormat.onionAddr lives in a source file that is not provided).
Section 4.1 of the spec: encode is deterministic and always produces the
canonical string of the form identity dot overlay-suffix colon port. -/
def encodeChars (id : List Char) (port : Nat) : List Char :=
  id ++ onionSuffix ++ natToDigits port

/-- Modelled from the spec: the AddressCodec decode direction
(defaultAddrFormat.onionInfo lives in a source file that is not provided).
It accepts exactly the canonical strings produced by encodeChars: a
non-empty identity without a dot, the overlay suffix, and a non-empty
decimal port. -/
def decodeChars (cs : List Char) : Option (List Char × Nat) :=
  if cs.takeWhile (fun c => c != '.') = [] then none
  else if (cs.dropWhile (fun c => c != '.')).take 7 = onionSuffix then
    if ((cs.dropWhile (fun c => c != '.')).drop 7 ≠ [] ∧
        ((cs.dropWhile (fun c => c != '.')).drop 7).all Char.isDigit) then
      some (cs.takeWhile (fun c => c != '.'),
        digitsToNat ((cs.dropWhile (fun c => c != '.')).drop 7))
    else none
  else none

/-- Modelled from the spec: string-level AddressCodec encode. -/
def encode (id : String) (port : Nat) : String :=
  String.mk (encodeChars id.data port)

/-- Modelled from the spec: string-level AddressCodec decode. -/
def decode (s : String) : Option (String × Nat) :=
  match decodeChars s.data with
  | none => none
  | some (id, port) => some (String.mk id, port)

/-- Modelled from the spec: defaultAddrFormat.onionAddr, the display
address for an onion service identity and port, to which callers may
append a sub-protocol suffix. -/
def onionAddr (id : String) (port : Nat) : String := encode id port

/-- A provider yielded by FindProvidersAsync: a peer identity with its
advertised address list. -/
structure Provider where
  ID : String
  Addrs : List String
deriving DecidableEq

/-- makePeerInfo (the DHT implementation file): builds a PeerInfo from a
peer identity and one multiaddr by decoding the onion info from the
address. -/
def makePeerInfo (id : String) (addr : String) : Except String PeerInfo :=
  match decode addr with
  | none => Except.error ("Failed getting onion info from address " ++ addr)
  | some (sid, port) => Except.ok ⟨id, sid, port⟩

/-- The range-over-channel loop of FindProviders. Each yielded provider has
its FIRST address read without an emptiness check (p.Addrs[0] in the
source), so a provider with no addresses makes the loop partial: that case
is the none result. A conversion failure aborts the whole call with an
error and no list; when the channel is exhausted the collected list is
returned together with ctx.Err (the ctxErr input). -/
def FindProvidersLoop :
    List Provider → List PeerInfo → Option String →
      Option (Except String (List PeerInfo × Option String))
  | [], ret, ctxErr => some (Except.ok (ret, ctxErr))
  | p :: rest, ret, ctxErr =>
    match p.Addrs with
    | [] => none
    | a :: _ =>
      match makePeerInfo p.ID a with
      | Except.error e =>
        some (Except.error ("Failed parsing " ++ p.ID ++ ": " ++ e))
      | Except.ok info => FindProvidersLoop rest (ret ++ [info]) ctxErr

/-- FindProviders (the DHT implementation file): hash the content id (the
hashedCID collaborator outcome is the cidRes input), then consume the
provider channel. The providers list is the sequence the channel yields
before closing; ctxErr is ctx.Err at that moment (some cause when the
sequence ended because the context expired). -/
def FindProviders (cidRes : Except String Nat) (providers : List Provider)
    (ctxErr : Option String) :
    Option (Except String (List PeerInfo × Option String)) :=
  match cidRes with
  | Except.error e => some (Except.error e)
  | Except.ok _ => FindProvidersLoop providers [] ctxErr

/-- The dialer fields of a TorTransport guarded by dialerLock: the tor
dialer and the optional websocket dialer (which wraps the tor dialer as
its underlying dial primitive, so it holds the same handle). -/
structure TorTransportState where
  torDialer : Option Nat
  wsDialer : Option Nat
deriving DecidableEq

/-- initDialers (transport.go lines 98 to 118): under the lock, return
immediately when the tor dialer already exists; otherwise consult the
bineTor dialer factory (outcome given by dialerRes) and, on success, store
the tor dialer and, when webSocket is configured, the websocket dialer
wrapping it. -/
def initDialers (dialerRes : Except String Nat) (webSocket : Bool)
    (t : TorTransportState) : Except String TorTransportState :=
  match t.torDialer with
  | some _ => Except.ok t
  | none =>
    match dialerRes with
    | Except.error e => Except.error ("Failed creating tor dialer: " ++ e)
    | Except.ok d =>
      Except.ok ⟨some d, if webSocket then some d else none⟩

/-- Result of a Dial call: the returned connection or error, plus whether
the raw connection ended up closed on that path. -/
structure DialOutcome where
  result : Except String Nat
  rawConnClosed : Bool

/-- Dial (transport.go lines 56 to 96): resolve the onion info of the
target address, init the dialers, perform the raw dial (websocket or
direct, collapsed into rawDialRes), wrap the net connection, then hand the
connection to the upgrade collaborator. The transport itself never closes
the raw connection; upgraderClosesRaw is Modelled from the spec: the
external upgrade collaborator (a black box per section 1) closes the raw
connection when the upgrade fails. -/
def Dial (t : TorTransportState) (onionInfoRes : Except String (String × Nat))
    (dialerRes : Except String Nat) (webSocket : Bool)
    (rawDialRes : Except String Nat) (wrapRes : Except String Nat)
    (upgradeRes : Except String Nat) (upgraderClosesRaw : Bool) :
    DialOutcome :=
  match onionInfoRes with
  | Except.error e => ⟨Except.error e, false⟩
  | Except.ok _ =>
    match initDialers dialerRes webSocket t with
    | Except.error e => ⟨Except.error e, false⟩
    | Except.ok _ =>
      match rawDialRes with
      | Except.error e => ⟨Except.error e, false⟩
      | Except.ok _ =>
        match wrapRes with
        | Except.error e => ⟨Except.error e, false⟩
        | Except.ok _ =>
          match upgradeRes with
          | Except.error e => ⟨Except.error e, upgraderClosesRaw⟩
          | Except.ok c => ⟨Except.ok c, false⟩

/-- An onion service handle as returned by bineTor.Listen: service
identity and remote ports. -/
structure Onion where
  ID : String
  RemotePorts : List Nat

/-- Result of a Listen call: the returned listener address or error, plus
whether the onion service was closed (the deferred rollback in
transport.go lines 147 to 152). -/
structure ListenOutcome where
  result : Except String String
  onionClosed : Bool

/-- Listen (transport.go lines 126 to 172): validate the onionListen
marker value, register the onion service (outcome onionRes), derive the
display address (appending the websocket suffix when configured), convert
it to a multiaddr (collaborator outcome maRes), and in websocket mode
start the websocket listener (outcome wsListenerRes). Any error after the
registration succeeded triggers the deferred onion.Close before the error
is returned. Reading RemotePorts at index zero is partial: the none result
is the panic on an empty RemotePorts list. -/
def Listen (webSocket : Bool) (protoVal : Except String String)
    (onionRes : Except String Onion) (maRes : Except String Nat)
    (wsListenerRes : Except String Nat) : Option ListenOutcome :=
  match protoVal with
  | Except.error e =>
    some ⟨Except.error ("Unable to get protocol value: " ++ e), false⟩
  | Except.ok val =>
    if val ≠ "" then
      some ⟨Except.error ("Must be /onionListen, got /onionListen/" ++ val),
        false⟩
    else
      match onionRes with
      | Except.error e => some ⟨Except.error e, false⟩
      | Except.ok onion =>
        match onion.RemotePorts with
        | [] => none
        | port :: _ =>
          match maRes with
          | Except.error e =>
            some ⟨Except.error ("Failed converting onion address: " ++ e),
              true⟩
          | Except.ok _ =>
            if webSocket then
              match wsListenerRes with
              | Except.error e =>
                some ⟨Except.error ("Failed creating websocket: " ++ e),
                  true⟩
              | Except.ok _ =>
                some ⟨Except.ok (onionAddr onion.ID port ++ "/ws"), false⟩
            else some ⟨Except.ok (onionAddr onion.ID port), false⟩

/-- A provider converts to a peer info when its first address decodes. -/
def convertsTo (p : Provider) (info : PeerInfo) : Prop :=
  ∃ a rest, p.Addrs = a :: rest ∧ makePeerInfo p.ID a = Except.ok info

theorem clamp_eq_min (n r : Nat) : (if n < r then n else r) = min r n := by
  split <;> omega

theorem connectPeers_def (peers : List PeerInfo) (r0 : Nat)
    (events : List PeerEvent) :
    connectPeers peers r0 events =
      connectPeersLoop peers.length (min r0 peers.length) events ⟨0, []⟩ := by
  unfold connectPeers
  rw [clamp_eq_min]

theorem connectPeersLoop_append (n r : Nat) (p q : List PeerEvent)
    (st : QcState) :
    connectPeersLoop n r (p ++ q) st =
      (match connectPeersLoop n r p st with
        | .pending st1 => connectPeersLoop n r q st1
        | out => out) := by
  induction p generalizing st with
  | nil => rfl
  | cons e rest ih =>
    cases e with
    | success =>
      by_cases hc : r ≤ st.peersConnected + 1 <;>
        simp [connectPeersLoop, hc, ih]
    | failure reason =>
      by_cases hc : n - r < st.peerErrs.length + 1 <;>
        simp [connectPeersLoop, hc, ih]
    | cancelled cause => simp [connectPeersLoop]

theorem connectPeersLoop_pending_state {n r : Nat} :
    ∀ (p : List PeerEvent) (st st1 : QcState),
      connectPeersLoop n r p st = .pending st1 →
      st1.peersConnected = st.peersConnected + countS p ∧
        st1.peerErrs = st.peerErrs ++ failReasons p := by
  intro p
  induction p with
  | nil =>
    intro st st1 h
    rw [connectPeersLoop] at h
    cases h
    simp [countS, failReasons]
  | cons e rest ih =>
    intro st st1 h
    cases e with
    | success =>
      by_cases hc : r ≤ st.peersConnected + 1
      · rw [connectPeersLoop, if_pos hc] at h
        exact ConnectOutcome.noConfusion h
      · rw [connectPeersLoop, if_neg hc] at h
        have h12 := ih _ _ h
        dsimp only at h12
        simp only [countS, failReasons]
        exact ⟨by omega, h12.2⟩
    | failure reason =>
      by_cases hc : n - r < (st.peerErrs ++ [reason]).length
      · rw [connectPeersLoop, if_pos hc] at h
        exact ConnectOutcome.noConfusion h
      · rw [connectPeersLoop, if_neg hc] at h
        have h12 := ih _ _ h
        dsimp only at h12
        simp only [countS, failReasons]
        refine ⟨h12.1, ?_⟩
        rw [h12.2, List.append_assoc, List.singleton_append]
    | cancelled cause =>
      rw [connectPeersLoop] at h
      exact ConnectOutcome.noConfusion h

theorem connectPeersLoop_ok_sound {n r : Nat} :
    ∀ (l : List PeerEvent) (st : QcState),
      connectPeersLoop n r l st = .ok →
      ∃ p q, l = p ++ q ∧ connectPeersLoop n r p st = .ok ∧
        r ≤ st.peersConnected + countS p := by
  intro l
  induction l with
  | nil =>
    intro st h
    rw [connectPeersLoop] at h
    exact ConnectOutcome.noConfusion h
  | cons e rest ih =>
    intro st h
    cases e with
    | success =>
      by_cases hc : r ≤ st.peersConnected + 1
      · refine ⟨[.success], rest, rfl, ?_, ?_⟩
        · rw [connectPeersLoop, if_pos hc]
        · simp only [countS]
          omega
      · rw [connectPeersLoop, if_neg hc] at h
        obtain ⟨p, q, hl, hok, hcount⟩ := ih _ h
        dsimp only at hcount
        refine ⟨.success :: p, q, by rw [hl, List.cons_append], ?_, ?_⟩
        · rw [connectPeersLoop, if_neg hc]
          exact hok
        · simp only [countS]
          omega
    | failure reason =>
      by_cases hc : n - r < (st.peerErrs ++ [reason]).length
      · rw [connectPeersLoop, if_pos hc] at h
        exact ConnectOutcome.noConfusion h
      · rw [connectPeersLoop, if_neg hc] at h
        obtain ⟨p, q, hl, hok, hcount⟩ := ih _ h
        dsimp only at hcount
        refine ⟨.failure reason :: p, q, by rw [hl, List.cons_append], ?_, ?_⟩
        · rw [connectPeersLoop, if_neg hc]
          exact hok
        · simpa only [countS] using hcount
    | cancelled cause =>
      rw [connectPeersLoop] at h
      exact ConnectOutcome.noConfusion h

theorem connectPeersLoop_fail_sound {n r : Nat} :
    ∀ (l : List PeerEvent) (st : QcState) (errs : List String),
      st.peerErrs.length ≤ n - r →
      connectPeersLoop n r l st = .quorumFail errs →
      errs.length = n - r + 1 ∧
        ∃ rest2, st.peerErrs ++ failReasons l = errs ++ rest2 := by
  intro l
  induction l with
  | nil =>
    intro st errs hb h
    rw [connectPeersLoop] at h
    exact ConnectOutcome.noConfusion h
  | cons e rest ih =>
    intro st errs hb h
    cases e with
    | success =>
      by_cases hc : r ≤ st.peersConnected + 1
      · rw [connectPeersLoop, if_pos hc] at h
        exact ConnectOutcome.noConfusion h
      · rw [connectPeersLoop, if_neg hc] at h
        have h12 := ih ⟨st.peersConnected + 1, st.peerErrs⟩ errs hb h
        simpa only [failReasons] using h12
    | failure reason =>
      by_cases hc : n - r < (st.peerErrs ++ [reason]).length
      · rw [connectPeersLoop, if_pos hc] at h
        cases h
        constructor
        · simp only [List.length_append, List.length_singleton] at hc ⊢
          omega
        · refine ⟨failReasons rest, ?_⟩
          simp only [failReasons]
          rw [List.append_assoc, List.singleton_append]
      · rw [connectPeersLoop, if_neg hc] at h
        have hb2 : (st.peerErrs ++ [reason]).length ≤ n - r := by
          omega
        have h12 := ih _ _ hb2 h
        dsimp only at h12
        refine ⟨h12.1, ?_⟩
        obtain ⟨rest2, hr2⟩ := h12.2
        refine ⟨rest2, ?_⟩
        simp only [failReasons]
        rw [List.append_assoc] at hr2
        exact hr2
    | cancelled cause =>
      rw [connectPeersLoop] at h
      exact ConnectOutcome.noConfusion h

theorem connectPeersLoop_cancel_sound {n r : Nat} :
    ∀ (l : List PeerEvent) (st : QcState) (cause : String)
      (errs : List String),
      connectPeersLoop n r l st = .cancelledOut cause errs →
      ∃ p q, l = p ++ .cancelled cause :: q ∧
        errs = st.peerErrs ++ failReasons p := by
  intro l
  induction l with
  | nil =>
    intro st cause errs h
    rw [connectPeersLoop] at h
    exact ConnectOutcome.noConfusion h
  | cons e rest ih =>
    intro st cause errs h
    cases e with
    | success =>
      by_cases hc : r ≤ st.peersConnected + 1
      · rw [connectPeersLoop, if_pos hc] at h
        exact ConnectOutcome.noConfusion h
      · rw [connectPeersLoop, if_neg hc] at h
        obtain ⟨p, q, hl, herrs⟩ := ih _ _ _ h
        dsimp only at herrs
        refine ⟨.success :: p, q, by rw [hl, List.cons_append], ?_⟩
        simpa only [failReasons] using herrs
    | failure reason =>
      by_cases hc : n - r < (st.peerErrs ++ [reason]).length
      · rw [connectPeersLoop, if_pos hc] at h
        exact ConnectOutcome.noConfusion h
      · rw [connectPeersLoop, if_neg hc] at h
        obtain ⟨p, q, hl, herrs⟩ := ih _ _ _ h
        dsimp only at herrs
        refine ⟨.failure reason :: p, q, by rw [hl, List.cons_append], ?_⟩
        simp only [failReasons]
        rw [herrs, List.append_assoc, List.singleton_append]
    | cancelled c =>
      rw [connectPeersLoop] at h
      cases h
      exact ⟨[], rest, rfl, by simp [failReasons]⟩

theorem connectPeers_append_pending {peers : List PeerInfo} {r0 : Nat}
    {p : List PeerEvent} {st : QcState}
    (h : connectPeers peers r0 p = .pending st) (q : List PeerEvent) :
    connectPeers peers r0 (p ++ q) =
      connectPeersLoop peers.length (min r0 peers.length) q st := by
  rw [connectPeers_def] at h ⊢
  rw [connectPeersLoop_append, h]

theorem digitVal_digitChar : ∀ n : Nat, n < 10 → digitVal (digitChar n) = n := by
  decide

theorem digitChar_isDigit : ∀ n : Nat, n < 10 → (digitChar n).isDigit = true := by
  decide

theorem digitsToNat_append (l : List Char) (c : Char) :
    digitsToNat (l ++ [c]) = digitsToNat l * 10 + digitVal c := by
  simp [digitsToNat, List.foldl_append]

theorem digitsToNat_natToDigitsCore :
    ∀ fuel n : Nat, n < fuel → digitsToNat (natToDigitsCore fuel n) = n := by
  intro fuel
  induction fuel with
  | zero => intro n h; omega
  | succ fuel ih =>
    intro n h
    by_cases h10 : n < 10
    · rw [natToDigitsCore, if_pos h10]
      simpa [digitsToNat] using digitVal_digitChar n h10
    · rw [natToDigitsCore, if_neg h10, digitsToNat_append,
        ih (n / 10) (by omega), digitVal_digitChar (n % 10) (by omega)]
      omega

theorem natToDigitsCore_all_digits :
    ∀ fuel n : Nat, (natToDigitsCore fuel n).all Char.isDigit = true := by
  intro fuel
  induction fuel with
  | zero => intro n; rfl
  | succ fuel ih =>
    intro n
    by_cases h10 : n < 10
    · rw [natToDigitsCore, if_pos h10]
      simp [List.all_cons, digitChar_isDigit n h10]
    · rw [natToDigitsCore, if_neg h10]
      simp [List.all_append, List.all_cons, ih,
        digitChar_isDigit (n % 10) (by omega)]

theorem natToDigitsCore_ne_nil (fuel n : Nat) (h : 0 < fuel) :
    natToDigitsCore fuel n ≠ [] := by
  cases fuel with
  | zero => omega
  | succ fuel => by_cases h10 : n < 10 <;> simp [natToDigitsCore, h10]

theorem takeWhile_append_of_all {α : Type} (p : α → Bool) :
    ∀ (l1 l2 : List α), (∀ a ∈ l1, p a = true) →
      (l1 ++ l2).takeWhile p = l1 ++ l2.takeWhile p := by
  intro l1
  induction l1 with
  | nil => intro l2 _; rfl
  | cons a t ih =>
    intro l2 h
    have ha : p a = true := h a (List.mem_cons_self a t)
    simp only [List.cons_append, List.takeWhile_cons, ha, if_true]
    rw [ih l2 (fun b hb => h b (List.mem_cons_of_mem a hb))]

theorem dropWhile_append_of_all {α : Type} (p : α → Bool) :
    ∀ (l1 l2 : List α), (∀ a ∈ l1, p a = true) →
      (l1 ++ l2).dropWhile p = l2.dropWhile p := by
  intro l1
  induction l1 with
  | nil => intro l2 _; rfl
  | cons a t ih =>
    intro l2 h
    have ha : p a = true := h a (List.mem_cons_self a t)
    simp only [List.cons_append, List.dropWhile_cons, ha]
    exact ih l2 (fun b hb => h b (List.mem_cons_of_mem a hb))

theorem decodeChars_encodeChars (id : List Char) (port : Nat)
    (h1 : id ≠ []) (h2 : ∀ c ∈ id, (c != '.') = true) :
    decodeChars (encodeChars id port) = some (id, port) := by
  have henc : encodeChars id port = id ++ (onionSuffix ++ natToDigits port) := by
    rw [encodeChars, List.append_assoc]
  have htw : (encodeChars id port).takeWhile (fun c => c != '.') = id := by
    rw [henc, takeWhile_append_of_all _ _ _ h2]
    have hsuf : (onionSuffix ++ natToDigits port).takeWhile
        (fun c => c != '.') = [] := rfl
    rw [hsuf, List.append_nil]
  have hdw : (encodeChars id port).dropWhile (fun c => c != '.') =
      onionSuffix ++ natToDigits port := by
    rw [henc, dropWhile_append_of_all _ _ _ h2]
    rfl
  have htake : (onionSuffix ++ natToDigits port).take 7 = onionSuffix := rfl
  have hdrop : (onionSuffix ++ natToDigits port).drop 7 = natToDigits port := rfl
  rw [decodeChars, htw, hdw, htake, hdrop]
  rw [if_neg h1, if_pos rfl,
    if_pos ⟨natToDigitsCore_ne_nil (port + 1) port (Nat.succ_pos port),
      natToDigitsCore_all_digits (port + 1) port⟩]
  rw [natToDigits, digitsToNat_natToDigitsCore (port + 1) port (by omega)]

theorem FindProvidersLoop_total :
    ∀ (provs : List Provider) (ret : List PeerInfo) (ctxErr : Option String),
      (∀ p ∈ provs, p.Addrs ≠ []) →
      ∃ out, FindProvidersLoop provs ret ctxErr = some out := by
  intro provs
  induction provs with
  | nil => intro ret ctxErr _; exact ⟨_, rfl⟩
  | cons p rest ih =>
    intro ret ctxErr h
    have hp : p.Addrs ≠ [] := h p (List.mem_cons_self p rest)
    cases haddr : p.Addrs with
    | nil => exact absurd haddr hp
    | cons a t =>
      cases hmk : makePeerInfo p.ID a with
      | error e =>
        refine ⟨Except.error ("Failed parsing " ++ p.ID ++ ": " ++ e), ?_⟩
        simp only [FindProvidersLoop, haddr, hmk]
      | ok info =>
        obtain ⟨out, hout⟩ := ih (ret ++ [info]) ctxErr
          (fun q hq => h q (List.mem_cons_of_mem p hq))
        refine ⟨out, ?_⟩
        simp only [FindProvidersLoop, haddr, hmk]
        exact hout

theorem FindProvidersLoop_skip :
    ∀ {pre : List Provider} {preInfos : List PeerInfo},
      List.Forall₂ convertsTo pre preInfos →
      ∀ (l : List Provider) (ret : List PeerInfo) (ctxErr : Option String),
        FindProvidersLoop (pre ++ l) ret ctxErr =
          FindProvidersLoop l (ret ++ preInfos) ctxErr := by
  intro pre preInfos hf
  induction hf with
  | nil => intro l ret ctxErr; simp
  | cons hpq hrest ih =>
    intro l ret ctxErr
    obtain ⟨a, rest, haddr, hmk⟩ := hpq
    simp only [List.cons_append, FindProvidersLoop, haddr, hmk]
    rw [List.append_eq, ih, List.append_assoc, List.singleton_append]

/-- Claim C1: connectPeers returns success as soon as the count of
successful attempt results reaches the clamped minimum, regardless of how
many events remain undelivered (they are discarded), and whenever it
returns success the prefix of results it consumed already contains at
least that many successes. -/
theorem connectPeers_success_quorum :
    (∀ (peers : List PeerInfo) (r0 : Nat) (p : List PeerEvent)
        (st : QcState) (q : List PeerEvent),
      connectPeers peers r0 p = ConnectOutcome.pending st →
      min r0 peers.length ≤ st.peersConnected + 1 →
      connectPeers peers r0 (p ++ PeerEvent.success :: q) =
        ConnectOutcome.ok)
    ∧ (∀ (peers : List PeerInfo) (r0 : Nat) (l : List PeerEvent),
      connectPeers peers r0 l = ConnectOutcome.ok →
      ∃ p q, l = p ++ q ∧ connectPeers peers r0 p = ConnectOutcome.ok ∧
        min r0 peers.length ≤ countS p) := by
  constructor
  · intro peers r0 p st q hp hr
    rw [connectPeers_append_pending hp, connectPeersLoop, if_pos hr]
  · intro peers r0 l hl
    rw [connectPeers_def] at hl
    obtain ⟨p, q, hpq, hok, hcount⟩ := connectPeersLoop_ok_sound l _ hl
    refine ⟨p, q, hpq, ?_, by simpa using hcount⟩
    rw [connectPeers_def]
    exact hok

/-- Witness for C1: three candidates, minimum two; the second success ends
the call successfully with a failure event still undelivered. -/
theorem connectPeers_success_quorum_witness :
    connectPeers [⟨"idA", "svcA", 1⟩, ⟨"idB", "svcB", 2⟩, ⟨"idC", "svcC", 3⟩]
        2 ([PeerEvent.failure "e1", PeerEvent.success] ++
          PeerEvent.success :: [PeerEvent.failure "e2"]) =
      ConnectOutcome.ok :=
  connectPeers_success_quorum.1
    [⟨"idA", "svcA", 1⟩, ⟨"idB", "svcB", 2⟩, ⟨"idC", "svcC", 3⟩] 2
    [PeerEvent.failure "e1", PeerEvent.success] ⟨1, ["e1"]⟩
    [PeerEvent.failure "e2"] (by decide) (by decide)

/-- Claim C2: connectPeers fails exactly when the recorded failures first
exceed the failure budget (peer count minus clamped minimum): the failure
that exceeds the budget returns an error aggregating every reason
recorded so far, a failure within the budget keeps the loop pending, and
any failure outcome carries exactly budget plus one reasons, which are the
first recorded ones. -/
theorem connectPeers_failure_budget :
    (∀ (peers : List PeerInfo) (r0 : Nat) (p : List PeerEvent)
        (st : QcState) (reason : String) (q : List PeerEvent),
      connectPeers peers r0 p = ConnectOutcome.pending st →
      peers.length - min r0 peers.length < st.peerErrs.length + 1 →
      connectPeers peers r0 (p ++ PeerEvent.failure reason :: q) =
        ConnectOutcome.quorumFail (failReasons p ++ [reason]))
    ∧ (∀ (peers : List PeerInfo) (r0 : Nat) (p : List PeerEvent)
        (st : QcState) (reason : String),
      connectPeers peers r0 p = ConnectOutcome.pending st →
      st.peerErrs.length + 1 ≤ peers.length - min r0 peers.length →
      connectPeers peers r0 (p ++ [PeerEvent.failure reason]) =
        ConnectOutcome.pending ⟨st.peersConnected, st.peerErrs ++ [reason]⟩)
    ∧ (∀ (peers : List PeerInfo) (r0 : Nat) (l : List PeerEvent)
        (errs : List String),
      connectPeers peers r0 l = ConnectOutcome.quorumFail errs →
      errs.length = peers.length - min r0 peers.length + 1 ∧
        ∃ rest2, failReasons l = errs ++ rest2) := by
  refine ⟨?_, ?_, ?_⟩
  · intro peers r0 p st reason q hp hr
    have hst := connectPeersLoop_pending_state p _ _
      ((connectPeers_def peers r0 p).symm.trans hp)
    have herrs : st.peerErrs = failReasons p := by simpa using hst.2
    have hcond : peers.length - min r0 peers.length <
        (st.peerErrs ++ [reason]).length := by
      simpa using hr
    rw [connectPeers_append_pending hp, connectPeersLoop, if_pos hcond,
      herrs]
  · intro peers r0 p st reason hp hr
    have hcond : ¬(peers.length - min r0 peers.length <
        (st.peerErrs ++ [reason]).length) := by
      simp only [List.length_append, List.length_singleton]
      omega
    rw [connectPeers_append_pending hp, connectPeersLoop, if_neg hcond,
      connectPeersLoop]
  · intro peers r0 l errs hl
    rw [connectPeers_def] at hl
    have h12 := connectPeersLoop_fail_sound l ⟨0, []⟩ errs (by simp) hl
    simpa using h12

/-- Witness for C2: three candidates, minimum two, budget one; the second
failure returns the aggregate of both reasons. -/
theorem connectPeers_failure_budget_witness :
    connectPeers [⟨"idD", "svcD", 4⟩, ⟨"idE", "svcE", 5⟩, ⟨"idF", "svcF", 6⟩]
        2 ([PeerEvent.failure "f1"] ++ PeerEvent.failure "f2" :: []) =
      ConnectOutcome.quorumFail ["f1", "f2"] :=
  connectPeers_failure_budget.1
    [⟨"idD", "svcD", 4⟩, ⟨"idE", "svcE", 5⟩, ⟨"idF", "svcF", 6⟩] 2
    [PeerEvent.failure "f1"] ⟨0, ["f1"]⟩ "f2" [] (by decide) (by decide)

/-- Claim C3 counterexample: with one candidate peer and minimum zero the
call does not succeed immediately (with no delivered results it is still
pending, hence not successful) and a connection attempt is still
launched. -/
theorem connectPeers_zero_min_cex :
    connectPeers [⟨"idZ", "svcZ", 9⟩] 0 [] = ConnectOutcome.pending ⟨0, []⟩ ∧
    connectPeers [⟨"idZ", "svcZ", 9⟩] 0 [] ≠ ConnectOutcome.ok ∧
    attemptsLaunched [⟨"idZ", "svcZ", 9⟩] ≠ 0 := by
  decide

/-- Claim C3 amended: a required minimum above the candidate count is
clamped to the candidate count; with required minimum zero the call still
launches one attempt per candidate and does not succeed immediately: it
stays pending until results arrive and returns success at the first
successful result. -/
theorem connectPeers_clamp_and_zero_min :
    (∀ (peers : List PeerInfo) (r0 : Nat) (events : List PeerEvent),
      peers.length ≤ r0 →
      connectPeers peers r0 events = connectPeers peers peers.length events)
    ∧ (∀ peers : List PeerInfo, attemptsLaunched peers = peers.length)
    ∧ (∀ peers : List PeerInfo,
      connectPeers peers 0 [] = ConnectOutcome.pending ⟨0, []⟩)
    ∧ (∀ (peers : List PeerInfo) (q : List PeerEvent),
      connectPeers peers 0 (PeerEvent.success :: q) = ConnectOutcome.ok) := by
  refine ⟨?_, fun _ => rfl, fun peers => ?_, ?_⟩
  · intro peers r0 events h
    rw [connectPeers_def, connectPeers_def]
    have hmin : min r0 peers.length = min peers.length peers.length := by
      omega
    rw [hmin]
  · rw [connectPeers_def, connectPeersLoop]
  · intro peers q
    rw [connectPeers_def, connectPeersLoop, if_pos (by omega)]

/-- Witness for the amended C3: a minimum of five with one candidate
behaves like a minimum of one. -/
theorem connectPeers_clamp_and_zero_min_witness :
    connectPeers [⟨"idW", "svcW", 7⟩] 5 [PeerEvent.success] =
      connectPeers [⟨"idW", "svcW", 7⟩] 1 [PeerEvent.success] :=
  connectPeers_clamp_and_zero_min.1 [⟨"idW", "svcW", 7⟩] 5
    [PeerEvent.success] (by decide)

/-- Claim C7: when ctx.Done is observed while the loop is still pending,
connectPeers returns the cancellation cause together with every per-peer
failure reason recorded up to that point; conversely every cancellation
outcome names a cancel event of the consumed sequence and carries exactly
the failure reasons recorded before it. -/
theorem connectPeers_cancel_reports :
    (∀ (peers : List PeerInfo) (r0 : Nat) (p : List PeerEvent)
        (st : QcState) (cause : String) (q : List PeerEvent),
      connectPeers peers r0 p = ConnectOutcome.pending st →
      connectPeers peers r0 (p ++ PeerEvent.cancelled cause :: q) =
        ConnectOutcome.cancelledOut cause (failReasons p))
    ∧ (∀ (peers : List PeerInfo) (r0 : Nat) (l : List PeerEvent)
        (cause : String) (errs : List String),
      connectPeers peers r0 l = ConnectOutcome.cancelledOut cause errs →
      ∃ p q, l = p ++ PeerEvent.cancelled cause :: q ∧
        errs = failReasons p) := by
  constructor
  · intro peers r0 p st cause q hp
    have hst := connectPeersLoop_pending_state p _ _
      ((connectPeers_def peers r0 p).symm.trans hp)
    have herrs : st.peerErrs = failReasons p := by simpa using hst.2
    rw [connectPeers_append_pending hp, connectPeersLoop, herrs]
  · intro peers r0 l cause errs hl
    rw [connectPeers_def] at hl
    obtain ⟨p, q, hpq, herrs⟩ := connectPeersLoop_cancel_sound l _ _ _ hl
    exact ⟨p, q, hpq, by simpa using herrs⟩

/-- Witness for C7: cancellation after one failure reports the cause and
that failure. -/
theorem connectPeers_cancel_reports_witness :
    connectPeers [⟨"idG", "svcG", 8⟩, ⟨"idH", "svcH", 9⟩] 1
        ([PeerEvent.failure "g1"] ++ PeerEvent.cancelled "deadline" :: []) =
      ConnectOutcome.cancelledOut "deadline" ["g1"] :=
  connectPeers_cancel_reports.1 [⟨"idG", "svcG", 8⟩, ⟨"idH", "svcH", 9⟩] 1
    [PeerEvent.failure "g1"] ⟨0, ["g1"]⟩ "deadline" [] (by decide)

/-- Claim C4: in websocket mode, when the onion registration succeeded but
the multiaddr conversion of the derived address or the websocket listener
construction fails, Listen returns an error and the onion service has been
closed by the deferred rollback. -/
theorem Listen_rollback_on_failure :
    ∀ (onion : Onion) (port : Nat) (rest : List Nat)
      (maRes wsListenerRes : Except String Nat),
      onion.RemotePorts = port :: rest →
      ((∃ em, maRes = Except.error em) ∨
        (∃ ew, wsListenerRes = Except.error ew)) →
      ∃ e, Listen true (Except.ok "") (Except.ok onion) maRes wsListenerRes =
        some ⟨Except.error e, true⟩ := by
  intro onion port rest maRes wsListenerRes hports hfail
  have hval : ¬(("" : String) ≠ "") := by simp
  rcases hfail with ⟨em, hem⟩ | ⟨ew, hew⟩
  · subst hem
    exact ⟨"Failed converting onion address: " ++ em,
      by simp [Listen, hports, hval]⟩
  · subst hew
    cases maRes with
    | error em =>
      exact ⟨"Failed converting onion address: " ++ em,
        by simp [Listen, hports, hval]⟩
    | ok m =>
      exact ⟨"Failed creating websocket: " ++ ew,
        by simp [Listen, hports, hval]⟩

/-- Witness for C4: websocket listener construction fails after a
successful registration on port 80; the onion is closed. -/
theorem Listen_rollback_on_failure_witness :
    ∃ e, Listen true (Except.ok "") (Except.ok ⟨"svcL", [80]⟩)
        (Except.ok 0) (Except.error "wsboom") =
      some ⟨Except.error e, true⟩ :=
  Listen_rollback_on_failure ⟨"svcL", [80]⟩ 80 [] (Except.ok 0)
    (Except.error "wsboom") rfl (Or.inr ⟨"wsboom", rfl⟩)

/-- Claim C5: when the raw dial and the wrap succeed but the upgrade
collaborator fails, Dial returns the upgrade error and the raw connection
is closed on that path (by the collaborator, per its contract in the
spec). -/
theorem Dial_upgrade_failure_closes_raw :
    ∀ (t t2 : TorTransportState) (info : String × Nat)
      (dialerRes : Except String Nat) (webSocket : Bool)
      (rawConn wrapConn : Nat) (e : String),
      initDialers dialerRes webSocket t = Except.ok t2 →
      Dial t (Except.ok info) dialerRes webSocket (Except.ok rawConn)
          (Except.ok wrapConn) (Except.error e) true =
        ⟨Except.error e, true⟩ := by
  intro t t2 info dialerRes webSocket rawConn wrapConn e hinit
  simp [Dial, hinit]

/-- Witness for C5 at concrete collaborator outcomes. -/
theorem Dial_upgrade_failure_closes_raw_witness :
    Dial ⟨none, none⟩ (Except.ok ("svcM", 443)) (Except.ok 5) false
        (Except.ok 1) (Except.ok 2) (Except.error "upgrade boom") true =
      ⟨Except.error "upgrade boom", true⟩ :=
  Dial_upgrade_failure_closes_raw ⟨none, none⟩ ⟨some 5, none⟩ ("svcM", 443)
    (Except.ok 5) false 1 2 "upgrade boom" rfl

/-- Claim C6: initDialers creates the dialer session at most once: with a
session already present every call is a no-op returning the unchanged
state, and any state returned successfully is a fixed point of every later
call, whatever factory outcome or configuration the later call sees (a
later dial failure never clears the session). -/
theorem initDialers_at_most_once :
    (∀ (dialerRes : Except String Nat) (webSocket : Bool)
        (t : TorTransportState) (d : Nat),
      t.torDialer = some d →
      initDialers dialerRes webSocket t = Except.ok t)
    ∧ (∀ (dialerRes : Except String Nat) (webSocket : Bool)
        (t t2 : TorTransportState),
      initDialers dialerRes webSocket t = Except.ok t2 →
      ∀ (dialerRes2 : Except String Nat) (webSocket2 : Bool),
        initDialers dialerRes2 webSocket2 t2 = Except.ok t2) := by
  constructor
  · intro dialerRes webSocket t d hd
    simp only [initDialers, hd]
  · intro dialerRes webSocket t t2 h dialerRes2 webSocket2
    cases ht : t.torDialer with
    | some d =>
      simp only [initDialers, ht] at h
      cases h
      simp only [initDialers, ht]
    | none =>
      cases dialerRes with
      | error e =>
        simp only [initDialers, ht] at h
        exact Except.noConfusion h
      | ok d =>
        simp only [initDialers, ht] at h
        cases h
        simp only [initDialers]

/-- Witness for C6: a transport whose tor dialer exists ignores a failing
factory and keeps its state. -/
theorem initDialers_at_most_once_witness :
    initDialers (Except.error "factory boom") true ⟨some 7, none⟩ =
      Except.ok ⟨some 7, none⟩ :=
  initDialers_at_most_once.1 (Except.error "factory boom") true
    ⟨some 7, none⟩ 7 rfl

/-- Claim C8: decoding the encoding of a valid identity and port pair
returns the same pair, and the concrete address string round-trips in both
directions. -/
theorem addressCodec_roundtrip :
    (∀ (id : String) (port : Nat),
      id ≠ "" → id.length ≤ 52 → (∀ c ∈ id.data, c ≠ '.') →
      1 ≤ port → port ≤ 65535 →
      decode (encode id port) = some (id, port))
    ∧ decode "abcdefghijklmnop.onion:4001" = some ("abcdefghijklmnop", 4001)
    ∧ encode "abcdefghijklmnop" 4001 = "abcdefghijklmnop.onion:4001" := by
  refine ⟨?_, by decide, by decide⟩
  intro id port hne _ hdot _ _
  have h1 : id.data ≠ [] := by
    intro hnil
    apply hne
    cases id with
    | mk data =>
      cases hnil
      rfl
  have h2 : ∀ c ∈ id.data, (c != '.') = true := by
    intro c hc
    simpa using hdot c hc
  have hdec := decodeChars_encodeChars id.data port h1 h2
  have hdata : (encode id port).data = encodeChars id.data port := rfl
  rw [decode, hdata, hdec]

/-- Witness for C8 at another valid pair. -/
theorem addressCodec_roundtrip_witness :
    decode (encode "svcsixteencharsx" 9050) = some ("svcsixteencharsx", 9050) :=
  addressCodec_roundtrip.1 "svcsixteencharsx" 9050 (by decide) (by decide)
    (by decide) (by decide) (by decide)

/-- Claim C9: FindProviders is total when every yielded provider has a
non-empty address list, and a provider yielded with zero addresses hits
the unchecked first-address read (the out-of-bounds case, modelled as the
none result). -/
theorem FindProviders_requires_nonempty_addrs :
    (∀ (cidRes : Except String Nat) (provs : List Provider)
        (ctxErr : Option String),
      (∀ p ∈ provs, p.Addrs ≠ []) →
      ∃ out, FindProviders cidRes provs ctxErr = some out)
    ∧ FindProviders (Except.ok 0) [⟨"peerX", []⟩] none = none := by
  constructor
  · intro cidRes provs ctxErr h
    cases cidRes with
    | error e => exact ⟨_, rfl⟩
    | ok k => exact FindProvidersLoop_total provs [] ctxErr h
  · rfl

/-- Witness for C9: a provider with one address converts without hitting
the out-of-bounds case. -/
theorem FindProviders_requires_nonempty_addrs_witness :
    ∃ out, FindProviders (Except.ok 0) [⟨"peerY", ["svcy.onion:80"]⟩] none =
      some out :=
  FindProviders_requires_nonempty_addrs.1 (Except.ok 0)
    [⟨"peerY", ["svcy.onion:80"]⟩] none (by decide)

/-- Claim C10: one conversion failure makes FindProviders return the error
with no result list, discarding every provider already converted; when
every provider converts, the call returns the collected conversions paired
with ctx.Err as it stood when the provider channel closed (non-nil exactly
when the sequence ended because the context expired). -/
theorem FindProviders_all_or_nothing :
    (∀ (k : Nat) (pre : List Provider) (preInfos : List PeerInfo)
        (p : Provider) (post : List Provider) (ctxErr : Option String)
        (a : String) (rest : List String) (e : String),
      List.Forall₂ convertsTo pre preInfos →
      p.Addrs = a :: rest →
      makePeerInfo p.ID a = Except.error e →
      FindProviders (Except.ok k) (pre ++ p :: post) ctxErr =
        some (Except.error ("Failed parsing " ++ p.ID ++ ": " ++ e)))
    ∧ (∀ (k : Nat) (provs : List Provider) (infos : List PeerInfo)
        (ctxErr : Option String),
      List.Forall₂ convertsTo provs infos →
      FindProviders (Except.ok k) provs ctxErr =
        some (Except.ok (infos, ctxErr))) := by
  constructor
  · intro k pre preInfos p post ctxErr a rest e hf haddr hmk
    show FindProvidersLoop (pre ++ p :: post) [] ctxErr = _
    rw [FindProvidersLoop_skip hf]
    simp only [FindProvidersLoop, haddr, hmk]
  · intro k provs infos ctxErr hf
    show FindProvidersLoop provs [] ctxErr = _
    have hskip := FindProvidersLoop_skip hf [] [] ctxErr
    rw [List.append_nil] at hskip
    rw [hskip]
    simp [FindProvidersLoop]

/-- Witness for C10: a single fully convertible provider is returned
together with the context expiry cause. -/
theorem FindProviders_all_or_nothing_witness :
    FindProviders (Except.ok 0) [⟨"peerZ", ["svcz.onion:81"]⟩]
        (some "context deadline exceeded") =
      some (Except.ok ([⟨"peerZ", "svcz", 81⟩],
        some "context deadline exceeded")) :=
  FindProviders_all_or_nothing.2 0 [⟨"peerZ", ["svcz.onion:81"]⟩]
    [⟨"peerZ", "svcz", 81⟩] (some "context deadline exceeded")
    (List.Forall₂.cons ⟨"svcz.onion:81", [], rfl, rfl⟩ List.Forall₂.nil)

end TorDht
